import Mathlib

/-!
Verification of the `sssg` static site generator (src/bin/sssg.rs) against its
natural-language specification.

Strings are shallowly embedded as `List Char` (`Str`): the Rust code operates on
UTF-8 `String`s, and every operation the claims depend on (regex `[.]{2}`
replacement, `ends_with`, `strip_suffix`, `rsplit('.')`, string formatting) is
character-based, so a character-list model is faithful.  The filesystem is
modelled as an association list from paths to file contents; `std::fs::write`
is create-or-overwrite, and OS-level read/write failures other than a missing
path are not modelled (their error text is abstracted).  External crates
(`toml`, `comrak`, `minifier`, `minify`) are opaque parameters bundled in
`Ext`; the `placeholder` crate's `render` is modelled from the spec (its
source is not part of this repository).
-/

namespace SSSG

/-- Character-list model of Rust `String`. -/
abbrev Str := List Char

/-- Association map from strings to strings: models both `HashMap<String, String>`
and the on-disk file tree (path to contents). -/
abbrev SMap := List (Str × Str)

/-- First-match lookup, the model of `HashMap::get` and of reading a file. -/
def alookup : SMap → Str → Option Str
  | [], _ => none
  | kv :: rest, k => if kv.1 = k then some kv.2 else alookup rest k

/-- Overwrite-or-append insertion, the model of `HashMap::insert` and of
`std::fs::write` (create or overwrite). -/
def ainsert : SMap → Str → Str → SMap
  | [], k, v => [(k, v)]
  | kv :: rest, k, v => if kv.1 = k then (k, v) :: rest else kv :: ainsert rest k v

/-- Boolean prefix test on character lists. -/
def prefixOfC : Str → Str → Bool
  | [], _ => true
  | _ :: _, [] => false
  | a :: as, b :: bs => a == b && prefixOfC as bs

/-- Model of Rust `str::starts_with`. -/
def startsWithC (s pre : Str) : Bool := prefixOfC pre s

/-- Model of Rust `str::ends_with`. -/
def endsWithC (s suffix : Str) : Bool := prefixOfC suffix.reverse s.reverse

/-- The sanitiser `SANITISE_URL.replace_all(url, "_")` where
`SANITISE_URL = Regex::new("[.]{2}")`: scanning left to right, each
(non-overlapping) occurrence of two consecutive dots is replaced by a single
underscore, exactly the leftmost-first semantics of `Regex::replace_all`. -/
def sanitise : Str → Str
  | [] => []
  | [c] => [c]
  | c1 :: c2 :: rest =>
    if c1 = '.' ∧ c2 = '.' then '_' :: sanitise rest
    else c1 :: sanitise (c2 :: rest)

/-- Substring test for the two-character sequence "..". -/
def hasDotDot : Str → Bool
  | c1 :: c2 :: rest => (c1 == '.' && c2 == '.') || hasDotDot (c2 :: rest)
  | _ => false

/-- Head-is-a-dot test, a helper for reasoning about `hasDotDot`. -/
def headIsDot : Str → Bool
  | c :: _ => c == '.'
  | [] => false

theorem hasDotDot_cons (c : Char) (z : Str) :
    hasDotDot (c :: z) = (((c == '.') && headIsDot z) || hasDotDot z) := by
  cases z with
  | nil => simp [hasDotDot, headIsDot]
  | cons d zs => simp [hasDotDot, headIsDot]

theorem headIsDot_sanitise (d : Char) (rest : Str) (hd : d ≠ '.') :
    headIsDot (sanitise (d :: rest)) = false := by
  cases rest with
  | nil => simp [sanitise, headIsDot, hd]
  | cons e es =>
    by_cases h : d = '.' ∧ e = '.'
    · exact absurd h.1 hd
    · simp only [sanitise, if_neg h, headIsDot]
      simp [hd]

theorem sanitise_no_dotdot (s : Str) : hasDotDot (sanitise s) = false := by
  induction s using sanitise.induct with
  | case1 => simp [sanitise, hasDotDot]
  | case2 c => simp [sanitise, hasDotDot]
  | case3 c1 c2 rest h ih =>
    simp only [sanitise, if_pos h]
    rw [hasDotDot_cons]
    simp only [ih, Bool.or_false]
    simp
  | case4 c1 c2 rest h ih =>
    simp only [sanitise, if_neg h]
    rw [hasDotDot_cons]
    simp only [ih, Bool.or_false]
    by_cases hc1 : c1 = '.'
    · have hc2 : c2 ≠ '.' := fun hc2 => h ⟨hc1, hc2⟩
      rw [headIsDot_sanitise c2 rest hc2]
      simp
    · simp [hc1]

theorem hasDotDot_append (a b : Str) (ha : hasDotDot a = false)
    (hb : hasDotDot b = false) (hbd : headIsDot b = false) :
    hasDotDot (a ++ b) = false := by
  induction a with
  | nil => simpa using hb
  | cons c cs ih =>
    rw [List.cons_append, hasDotDot_cons]
    rw [hasDotDot_cons] at ha
    rcases Bool.or_eq_false_iff.mp ha with ⟨ha1, ha2⟩
    rw [ih ha2, Bool.or_false]
    cases cs with
    | nil => simp [hbd]
    | cons d ds =>
      simp only [List.cons_append]
      simp only [headIsDot] at ha1 ⊢
      exact ha1

/-- Relating the executable `hasDotDot` to the infix ("contains substring")
relation for "..". -/
theorem hasDotDot_iff (s : Str) : hasDotDot s = true ↔ ['.', '.'] <:+: s := by
  induction s with
  | nil => simp [hasDotDot]
  | cons c z ih =>
    rw [List.infix_cons_iff, hasDotDot_cons]
    constructor
    · intro h
      rcases Bool.or_eq_true_iff.mp h with h1 | h2
      · left
        rcases Bool.and_eq_true_iff.mp h1 with ⟨hc, hz⟩
        cases z with
        | nil => simp [headIsDot] at hz
        | cons d ds =>
          simp only [headIsDot, beq_iff_eq] at hc hz
          subst hc; subst hz
          exact ⟨ds, rfl⟩
      · right; exact ih.mp h2
    · intro h
      rcases h with h | h
      · rcases h with ⟨t, ht⟩
        have : c = '.' ∧ z = '.' :: t := by
          have := ht
          simp only [List.cons_append] at this
          cases this
          exact ⟨rfl, rfl⟩
        rcases this with ⟨hc, hz⟩
        subst hc; subst hz
        simp [headIsDot]
      · rw [ih.mpr h]; simp

theorem sanitise_not_infix_dotdot (s : Str) : ¬ (['.', '.'] <:+: sanitise s) := by
  intro h
  have := (hasDotDot_iff (sanitise s)).mpr h
  rw [sanitise_no_dotdot s] at this
  exact Bool.false_ne_true this

/-! Fixed path fragments and tokens appearing in the source. -/

/-- The pipeline marker suffix ".sssg". -/
def sssgSuffix : Str := (".sssg").data

/-- The output-tree directory fragment "/htdocs" used in `format!("{}/htdocs...", cwd())`. -/
def htdocsDir : Str := ("/htdocs").data

/-- The template directory fragment "/templates/" used in `format!("{}/templates/{t}", cwd())`. -/
def templatesDir : Str := ("/templates/").data

/-- The fixed index filename appended when a request path ends with a slash. -/
def indexFile : Str := ("index.html").data

/-- The "css" kind token. -/
def cssTok : Str := ("css").data

/-- The "html" kind token. -/
def htmlTok : Str := ("html").data

/-- The "js" kind token. -/
def jsTok : Str := ("js").data

/-! Basic facts about `prefixOfC` / `startsWithC` / `endsWithC`. -/

theorem prefixOfC_iff (p s : Str) : prefixOfC p s = true ↔ p <+: s := by
  induction p generalizing s with
  | nil => simp [prefixOfC]
  | cons a as ih =>
    cases s with
    | nil => simp [prefixOfC]
    | cons b bs =>
      simp only [prefixOfC, Bool.and_eq_true, beq_iff_eq]
      rw [ih]
      constructor
      · rintro ⟨rfl, t, rfl⟩
        exact ⟨t, rfl⟩
      · rintro ⟨t, ht⟩
        cases ht
        exact ⟨rfl, t, rfl⟩

theorem startsWithC_iff (s p : Str) : startsWithC s p = true ↔ p <+: s :=
  prefixOfC_iff p s

theorem endsWithC_iff (s t : Str) : endsWithC s t = true ↔ t <:+ s := by
  rw [endsWithC, prefixOfC_iff, List.reverse_prefix]

theorem endsWithC_exists (s t : Str) :
    endsWithC s t = true ↔ ∃ pre, s = pre ++ t := by
  rw [endsWithC_iff]
  constructor
  · rintro ⟨pre, rfl⟩; exact ⟨pre, rfl⟩
  · rintro ⟨pre, rfl⟩; exact ⟨pre, rfl⟩

/-! The model of `filename.rsplit('.')`: `splitDot` is `str::split('.')` (with
empty pieces kept, as in Rust), and `rsplit` yields the same pieces in reverse
order, so `rsplit('.').skip(1).take(1).next()`, the second-to-last
dot-delimited component, is index 1 of the reversed split. -/

/-- Split a character list at every '.', keeping empty pieces (Rust `split('.')`). -/
def splitDot : Str → List Str
  | [] => [[]]
  | c :: rest =>
    if c = '.' then [] :: splitDot rest
    else
      match splitDot rest with
      | [] => [[c]]
      | p :: ps => (c :: p) :: ps

/-- The kind token of а filename: the second-to-last dot-delimited component,
i.e. `filename.rsplit('.').skip(1).take(1).next()`. -/
def kindToken (filename : Str) : Option Str := ((splitDot filename).reverse).get? 1

/-- The artifact path of a marker-suffixed source: `filename.strip_suffix(".sssg").unwrap()`.
Modelled totally by dropping the last five characters; the build only applies it
to filenames that end with ".sssg", where the two agree. -/
def artifactOf (filename : Str) : Str := filename.take (filename.length - sssgSuffix.length)

theorem splitDot_ne_nil (s : Str) : splitDot s ≠ [] := by
  cases s with
  | nil => simp [splitDot]
  | cons c rest =>
    by_cases h : c = '.'
    · simp [splitDot, h]
    · simp only [splitDot, if_neg h]
      cases hs : splitDot rest with
      | nil => simp
      | cons p ps => simp

theorem splitDot_append_dot (a b : Str) :
    splitDot (a ++ '.' :: b) = splitDot a ++ splitDot b := by
  induction a with
  | nil => simp [splitDot]
  | cons c a' ih =>
    by_cases h : c = '.'
    · simp [splitDot, h, ih]
    · simp only [List.cons_append, splitDot, if_neg h]
      cases hs : splitDot a' with
      | nil => exact absurd hs (splitDot_ne_nil a')
      | cons p ps =>
        simp only [List.append_eq]
        rw [ih, hs]
        simp

theorem sssgSuffix_eq : sssgSuffix = '.' :: ("sssg").data := by decide

theorem artifactOf_append (pre : Str) : artifactOf (pre ++ sssgSuffix) = pre := by
  have h5 : sssgSuffix.length = 5 := by decide
  simp [artifactOf, h5, List.take_left']

theorem artifact_inj (f g : Str) (hf : endsWithC f sssgSuffix = true)
    (hg : endsWithC g sssgSuffix = true) (h : artifactOf f = artifactOf g) : f = g := by
  rcases (endsWithC_exists f sssgSuffix).mp hf with ⟨pf, rfl⟩
  rcases (endsWithC_exists g sssgSuffix).mp hg with ⟨pg, rfl⟩
  rw [artifactOf_append, artifactOf_append] at h
  rw [h]

theorem kindToken_append (pre : Str) :
    kindToken (pre ++ sssgSuffix) = ((splitDot pre).reverse).get? 0 := by
  rw [kindToken, sssgSuffix_eq, splitDot_append_dot]
  have : splitDot (("sssg").data) = [("sssg").data] := by decide
  rw [this, List.reverse_append]
  simp

theorem artifact_not_sssg (f k : Str) (hf : endsWithC f sssgSuffix = true)
    (hk : kindToken f = some k) (hv : k = cssTok ∨ k = htmlTok ∨ k = jsTok) :
    endsWithC (artifactOf f) sssgSuffix = false := by
  rcases (endsWithC_exists f sssgSuffix).mp hf with ⟨pre, rfl⟩
  rw [artifactOf_append]
  by_contra hcon
  have hpre : endsWithC pre sssgSuffix = true := by
    cases h : endsWithC pre sssgSuffix
    · exact absurd h hcon
    · rfl
  rcases (endsWithC_exists pre sssgSuffix).mp hpre with ⟨pre', rfl⟩
  rw [kindToken_append, sssgSuffix_eq, splitDot_append_dot] at hk
  have hs : splitDot (("sssg").data) = [("sssg").data] := by decide
  rw [hs, List.reverse_append] at hk
  simp only [List.reverse_cons, List.reverse_nil, List.nil_append, List.singleton_append,
    List.get?] at hk
  have hks : k = ("sssg").data := by
    injection hk with hk'
    exact hk'.symm
  rcases hv with hv | hv | hv <;> rw [hv] at hks <;> exact absurd hks (by decide)

/-! Filesystem path resolution.  `std::fs` calls hand their path to the OS,
which resolves "." and ".." components before touching the file.  The walked
source paths and the artifact paths derived from them contain no such
components, but the template path `format!("{}/templates/{t}", cwd())` embeds
the untrusted config value `t`.  `normalizePath` models the OS's resolution
lexically (the traversed directories are assumed to exist; symlinks are not
modelled): split on '/', drop "." components, and let ".." remove the
preceding component. -/

/-- Split a character list at every '/', keeping empty pieces. -/
def splitSlash : Str → List Str
  | [] => [[]]
  | c :: rest =>
    if c = '/' then [] :: splitSlash rest
    else
      match splitSlash rest with
      | [] => [[c]]
      | p :: ps => (c :: p) :: ps

/-- Rejoin path components with '/'. -/
def joinSlash : List Str → Str
  | [] => []
  | [p] => p
  | p :: ps => p ++ '/' :: joinSlash ps

/-- Resolve "." and ".." components left to right: ".." removes the component
before it, "." disappears. -/
def resolveComps : List Str → List Str → List Str
  | acc, [] => acc
  | acc, comp :: rest =>
    if comp = ['.', '.'] then resolveComps acc.dropLast rest
    else if comp = ['.'] then resolveComps acc rest
    else resolveComps (acc ++ [comp]) rest

/-- The OS-resolved form of a path. -/
def normalizePath (p : Str) : Str := joinSlash (resolveComps [] (splitSlash p))

/-! The artifact of a source under the htdocs root stays under the htdocs
root: the ".sssg" suffix cannot overlap the "/htdocs" prefix, because no
suffix of "/htdocs" is a prefix of ".sssg". -/

theorem prefix_append_cancel (l a b : Str) (h : (l ++ a) <+: (l ++ b)) : a <+: b := by
  rcases h with ⟨t, ht⟩
  rw [List.append_assoc] at ht
  exact ⟨t, List.append_cancel_left ht⟩

theorem prefix_append_of_le (p x y : Str) (h : p <+: x ++ y)
    (hl : p.length ≤ x.length) : p <+: x := by
  have hp : p = (x ++ y).take p.length := List.prefix_iff_eq_take.mp h
  rw [List.take_append_eq_append_take, Nat.sub_eq_zero_of_le hl, List.take_zero,
    List.append_nil] at hp
  rw [hp]
  exact List.take_prefix _ _

theorem suffix_append_of_le (d x y : Str) (h : d <:+ x ++ y)
    (hl : d.length ≤ y.length) : d <:+ y := by
  rw [← List.reverse_prefix]
  have h2 : d.reverse <+: (x ++ y).reverse := List.reverse_prefix.mpr h
  rw [List.reverse_append] at h2
  exact prefix_append_of_le d.reverse y.reverse x.reverse h2 (by simpa using hl)

theorem artifact_htdocs_prefix (cwd f : Str)
    (hst : startsWithC f (cwd ++ htdocsDir) = true)
    (hend : endsWithC f sssgSuffix = true) :
    startsWithC (artifactOf f) (cwd ++ htdocsDir) = true := by
  rcases (endsWithC_exists f sssgSuffix).mp hend with ⟨q, rfl⟩
  rw [artifactOf_append]
  rw [startsWithC_iff] at hst ⊢
  have hq : q <+: q ++ sssgSuffix := List.prefix_append q sssgSuffix
  rcases List.prefix_or_prefix_of_prefix hst hq with h | h
  · exact h
  · rcases h with ⟨d, hd⟩
    have hds : d <+: sssgSuffix := by
      have h3 : q ++ d <+: q ++ sssgSuffix := by
        rw [hd]
        exact hst
      exact prefix_append_cancel q d sssgSuffix h3
    cases d with
    | nil =>
      rw [List.append_nil] at hd
      rw [hd]
    | cons c0 ds =>
      exfalso
      have hc0 : c0 = '.' := by
        rcases hds with ⟨t, ht⟩
        rw [sssgSuffix_eq] at ht
        simp only [List.cons_append] at ht
        injection ht with h1 h2
      have hlen : (c0 :: ds).length ≤ htdocsDir.length := by
        have hx := hds.length_le
        rw [show sssgSuffix.length = 5 from by decide] at hx
        rw [show htdocsDir.length = 7 from by decide]
        omega
      have hdsuf : (c0 :: ds) <:+ cwd ++ htdocsDir := ⟨q, hd⟩
      have hsuf2 : (c0 :: ds) <:+ htdocsDir :=
        suffix_append_of_le (c0 :: ds) cwd htdocsDir hdsuf hlen
      have hmem : c0 ∈ htdocsDir := by
        rcases hsuf2 with ⟨u, hu⟩
        rw [← hu]
        exact List.mem_append_right u (List.mem_cons_self c0 ds)
      rw [hc0] at hmem
      exact absurd hmem (by decide)

/-! The structured-document model.  `toml::Value` is embedded with string
values, tables, and a catch-all `vother` for every other value shape
(integers, arrays, booleans, ...), on which both `as_str` and `as_table`
return `None`, which is all the program depends on. -/

inductive Toml where
  | vstr : Str → Toml
  | vtable : List (Str × Toml) → Toml
  | vother : Toml

/-- Key lookup in a table's entry list. -/
def tlookup : List (Str × Toml) → Str → Option Toml
  | [], _ => none
  | kv :: rest, k => if kv.1 = k then some kv.2 else tlookup rest k

/-- `Value::get`: table lookup, `None` on any non-table value. -/
def Toml.get : Toml → Str → Option Toml
  | .vtable entries, name => tlookup entries name
  | _, _ => none

/-- `Value::as_table`. -/
def Toml.as_table : Toml → Option (List (Str × Toml))
  | .vtable t => some t
  | _ => none

/-- `Value::as_str`. -/
def Toml.as_str : Toml → Option Str
  | .vstr s => some s
  | _ => none

/-- The coercion `v.1.as_str().unwrap_or("")` applied to every section entry. -/
def asStrOrEmpty (v : Toml) : Str := (Toml.as_str v).getD []

/-- Folding `values.insert(key, h value)` over an entry list, the model of the
`for`-loops that populate a `HashMap` (in `get_section`) and that merge the
markdown section into the plaintext map (in `generate_html`). -/
def insertAll {α : Type} (h : α → Str) (l : List (Str × α)) (init : SMap) : SMap :=
  l.foldl (fun values v => ainsert values v.1 (h v.2)) init

/-- `get_section`: an absent section or a non-table section yields the empty
map; entries of a table section are inserted with non-string values coerced
to the empty string. -/
def get_section (name : Str) (document : Toml) : SMap :=
  match document.get name with
  | none => []
  | some c =>
    match c.as_table with
    | none => []
    | some t => insertAll asStrOrEmpty t []

/-- The external capabilities consumed by the pipeline, kept opaque:
`toml::from_str`, `comrak::markdown_to_html` (with the fixed global options),
`minifier::css::minify` (fallible), `minifier::js::minify`,
`minify::html::minify`. -/
structure Ext where
  parse : Str → Except Str Toml
  markdownToHtml : Str → Str
  cssMinify : Str → Except Str Str
  jsMinify : Str → Str
  htmlMinify : Str → Str

/-- The merged placeholder map of `generate_html`: the plaintext section with
every markdown entry inserted (markdown-rendered) on top of it. -/
def mergedMap (E : Ext) (document : Toml) : SMap :=
  insertAll E.markdownToHtml (get_section (("markdown").data) document)
    (get_section (("plaintext").data) document)

/-! Diagnostic message texts from the source (`die!` and error strings).
The single-quote character is written out via its code point. -/

/-- The single-quote character as a one-character string. -/
def sq : Str := [Char.ofNat 39]

/-- Message of `die!("Filename '{}' not in the form <name>.(css|html|js).sssg", f)`. -/
def badFormMsg (filename : Str) : Str :=
  ("Filename ").data ++ sq ++ filename ++ sq ++
    (" not in the form <name>.(css|html|js).sssg").data

/-- Message of `die!("Error generating content for '{}' ({})", f, err)`. -/
def genErrMsg (filename err : Str) : Str :=
  ("Error generating content for ").data ++ sq ++ filename ++ sq ++ (" (").data ++
    err ++ (")").data

/-- Message of `die!("Error reading '{}' ({})", f, err)`; the OS error text is
not modelled. -/
def readErrMsg (filename : Str) : Str :=
  ("Error reading ").data ++ sq ++ filename ++ sq

/-- Message of `die!("Error reading template file '{}' ({})", t, err)`; the OS
error text is not modelled. -/
def tmplReadMsg (t : Str) : Str :=
  ("Error reading template file ").data ++ sq ++ t ++ sq

/-- Message `format!("Template variable '{}' is missing its value", err)`. -/
def missingVarMsg (n : Str) : Str :=
  ("Template variable ").data ++ sq ++ n ++ sq ++ (" is missing its value").data

/-- The fixed string substituted for any TOML parse failure by
`.map_err(|_| "TOML parse error")`. -/
def parseErrMsg : Str := ("TOML parse error").data

/-- Message "Template file not defined in 'config' section". -/
def missingTemplateMsg : Str :=
  ("Template file not defined in ").data ++ sq ++ ("config").data ++ sq ++
    (" section").data

/-- Message `format!("Error reading file '{}' ({})", filename, err)` of the server. -/
def readFileMsg (filename err : Str) : Str :=
  ("Error reading file ").data ++ sq ++ filename ++ sq ++ (" (").data ++ err ++ (")").data

/-- The server's fixed 404 body for marker-suffixed request paths. -/
def notFoundMsg : Str := ("File not found").data

/-! The placeholder substitution engine.

Modelled from the spec: the `placeholder` crate's `render` is not part of this
repository.  Per the spec, a placeholder is a name between a fixed delimiter
pair (written here as double braces), every placeholder must have a key in the
map, substitution fails with the name of the first unresolved placeholder in
template scan order, substituted values are not re-scanned, and unused map
keys are ignored. -/

/-- Scan up to the closing delimiter: returns the placeholder name and the
remainder after the closing pair. -/
def takePH : Str → Option (Str × Str)
  | [] => none
  | '\x7d' :: '\x7d' :: rest => some ([], rest)
  | c :: rest =>
    match takePH rest with
    | none => none
    | some nr => some (c :: nr.1, nr.2)

theorem takePH_length (s : Str) : ∀ n r, takePH s = some (n, r) → r.length < s.length := by
  induction s using takePH.induct with
  | case1 => intro n r h; exact absurd h (by simp [takePH])
  | case2 rest =>
    intro n r h
    simp only [takePH] at h
    cases h
    simp [List.length_cons]
    omega
  | case3 c rest h1 h2 ih =>
    intro n r h
    simp only [takePH] at h
    rw [h2] at h
    exact absurd h (by simp)
  | case4 c rest h1 nr h2 ih =>
    intro n r h
    simp only [takePH] at h
    rw [h2] at h
    simp only [Option.some.injEq] at h
    have := ih nr.1 nr.2 (by rw [h2])
    cases h
    simp only [List.length_cons]
    omega

/-- Modelled from the spec: `placeholder::render(template, &map)`.  Copies the
template, replacing each double-brace-delimited placeholder with its mapped
value; fails with the placeholder name on the first name absent from the map.
An unterminated opening delimiter is emitted literally. -/
def render (map : SMap) : Str → Except Str Str
  | [] => .ok []
  | '\x7b' :: '\x7b' :: rest =>
    match h : takePH rest with
    | none => .ok ('\x7b' :: '\x7b' :: rest)
    | some nr =>
      match alookup map nr.1 with
      | none => .error nr.1
      | some v => (render map nr.2).map (fun out => v ++ out)
  | c :: rest => (render map rest).map (fun out => c :: out)
termination_by t => t.length
decreasing_by
  · have hlt := takePH_length rest nr.1 nr.2 (by rw [h])
    simp only [List.length_cons]
    omega
  · simp only [List.length_cons]
    omega

/-- The placeholder names of a template in scan order (same scan as `render`). -/
def placeholders : Str → List Str
  | [] => []
  | '\x7b' :: '\x7b' :: rest =>
    match h : takePH rest with
    | none => []
    | some nr => nr.1 :: placeholders nr.2
  | _ :: rest => placeholders rest
termination_by t => t.length
decreasing_by
  · have hlt := takePH_length rest nr.1 nr.2 (by rw [h])
    simp only [List.length_cons]
    omega
  · simp only [List.length_cons]
    omega

/-- The first placeholder of the template, in scan order, that has no key in
the map. -/
def firstMissing (map : SMap) (t : Str) : Option Str :=
  (placeholders t).find? (fun p => (alookup map p).isNone)

/-! The build pipeline. -/

/-- Generation errors: `soft` errors are returned as `Err` values and wrapped
by the caller into "Error generating content for ...", `fatal` errors model a
`die!` inside the generator (template file read failure). -/
inductive GenErr where
  | soft : Str → GenErr
  | fatal : Str → GenErr
deriving DecidableEq

/-- `generate_html`: parse the document (any parse failure becomes the fixed
"TOML parse error" string), extract the sections, merge markdown-rendered
entries over the plaintext map, require a `template` config key, read the
template file, substitute, and minify.  The template read goes through the
OS, which resolves "." and ".." in `format!("{}/templates/{t}", cwd())`, so
the lookup is at the normalized path; the diagnostic on a failed read names
the path as formatted. -/
def generate_html (E : Ext) (cwd : Str) (fs : SMap) (contents : Str) : Except GenErr Str :=
  match E.parse contents with
  | .error _ => .error (.soft parseErrMsg)
  | .ok document =>
    match alookup (get_section (("config").data) document) (("template").data) with
    | none => .error (.soft missingTemplateMsg)
    | some t =>
      match alookup fs (normalizePath (cwd ++ templatesDir ++ t)) with
      | none => .error (.fatal (tmplReadMsg (cwd ++ templatesDir ++ t)))
      | some template_contents =>
        match render (mergedMap E document) template_contents with
        | .error err => .error (.soft (missingVarMsg err))
        | .ok output => .ok (E.htmlMinify output)

/-- The kind dispatch of `generate_files`: match on
`filename.rsplit('.').skip(1).take(1).next()` and route to the CSS minifier,
the HTML generator, or the JS minifier; anything else is a fatal bad-form
error naming the filename. -/
def computeOutput (E : Ext) (cwd : Str) (fs : SMap) (filename contents : Str) :
    Except GenErr Str :=
  match kindToken filename with
  | none => .error (.fatal (badFormMsg filename))
  | some filetype =>
    if filetype = cssTok then (E.cssMinify contents).mapError GenErr.soft
    else if filetype = htmlTok then generate_html E cwd fs contents
    else if filetype = jsTok then .ok (E.jsMinify contents)
    else .error (.fatal (badFormMsg filename))

/-- One iteration of the `generate_files` loop on one filename: read the
source, compute the output, and on success write it to the path with the
".sssg" suffix stripped; any failure aborts with a message and writes
nothing. -/
def buildFile (E : Ext) (cwd : Str) (fs : SMap) (filename : Str) : SMap × Option Str :=
  match alookup fs filename with
  | none => (fs, some (readErrMsg filename))
  | some contents =>
    match computeOutput E cwd fs filename contents with
    | .error (.fatal m) => (fs, some m)
    | .error (.soft e) => (fs, some (genErrMsg filename e))
    | .ok o => (ainsert fs (artifactOf filename) o, none)

/-- Whether a path is picked up by `WalkDir::new(format!("{}/htdocs", cwd()))`
filtered with `.ends_with(".sssg")`. -/
def srcFile (cwd : Str) (p : Str) : Bool :=
  startsWithC p (cwd ++ htdocsDir) && endsWithC p sssgSuffix

/-- The list of marker-suffixed source files, in walk order. -/
def sssgFiles (cwd : Str) (fs : SMap) : List Str :=
  (fs.map Prod.fst).filter (srcFile cwd)

/-- The `generate_files` loop over a filename list: fail-fast, stopping at the
first error with the filesystem as it stands. -/
def buildGo (E : Ext) (cwd : Str) : List Str → SMap → SMap × Option Str
  | [], fs => (fs, none)
  | f :: rest, fs =>
    match buildFile E cwd fs f with
    | (fs1, none) => buildGo E cwd rest fs1
    | (fs1, some e) => (fs1, some e)

/-- `generate_files`: collect the marker-suffixed files under htdocs, then run
the per-file pipeline over them in order. -/
def buildRun (E : Ext) (cwd : Str) (fs : SMap) : SMap × Option Str :=
  buildGo E cwd (sssgFiles cwd fs) fs

/-! The preview server's per-request path resolution (`serve_htdocs` loop body). -/

/-- An HTTP response: status code and raw body bytes. -/
structure HttpResponse where
  status : Nat
  body : Str
deriving DecidableEq

/-- The file path the server resolves a raw request path to, after
sanitisation: `None` when the sanitised path ends with ".sssg" (served as a
404 with no filesystem access), the htdocs path with "index.html" appended
when it ends with '/', and the htdocs path otherwise. -/
def servedFilename (cwd rawUrl : Str) : Option Str :=
  let url := sanitise rawUrl
  if endsWithC url sssgSuffix then none
  else if endsWithC url ['/'] then some (cwd ++ htdocsDir ++ url ++ indexFile)
  else some (cwd ++ htdocsDir ++ url)

/-- One request: resolve the sanitised path and serve the read bytes with 200,
or a diagnostic 404.  `rd` is `std::fs::read`, which may fail with an error
text even for mundane reasons (missing file, permissions). -/
def serveRequest (rd : Str → Except Str Str) (cwd rawUrl : Str) : HttpResponse :=
  match servedFilename cwd rawUrl with
  | none => ⟨404, notFoundMsg⟩
  | some filename =>
    match rd filename with
    | .ok contents => ⟨200, contents⟩
    | .error err => ⟨404, readFileMsg filename err⟩

/-! Association-map lemmas. -/

theorem alookup_ainsert_self (m : SMap) (k v : Str) :
    alookup (ainsert m k v) k = some v := by
  induction m with
  | nil => simp [ainsert, alookup]
  | cons kv rest ih =>
    by_cases h : kv.1 = k
    · simp [ainsert, h, alookup]
    · simp [ainsert, h, alookup, ih]

theorem alookup_ainsert_ne (m : SMap) (k v k' : Str) (h : k' ≠ k) :
    alookup (ainsert m k v) k' = alookup m k' := by
  have h' : ¬(k = k') := fun he => h he.symm
  induction m with
  | nil => simp [ainsert, alookup, h']
  | cons kv rest ih =>
    obtain ⟨k0, v0⟩ := kv
    by_cases hk : k0 = k
    · subst hk
      simp [ainsert, alookup, h']
    · by_cases hk' : k0 = k'
      · simp [ainsert, hk, alookup, hk', h]
      · simp [ainsert, hk, alookup, hk', ih]

theorem alookup_ainsert_present (m : SMap) (k v p w : Str)
    (h : alookup m p = some w) : ∃ w', alookup (ainsert m k v) p = some w' := by
  by_cases hp : p = k
  · subst hp; exact ⟨v, alookup_ainsert_self m p v⟩
  · exact ⟨w, by rw [alookup_ainsert_ne m k v p hp, h]⟩

theorem mem_keys_ainsert (m : SMap) (k v k' : Str) :
    k' ∈ (ainsert m k v).map Prod.fst ↔ k' ∈ m.map Prod.fst ∨ k' = k := by
  induction m with
  | nil => simp [ainsert]
  | cons kv rest ih =>
    obtain ⟨k0, v0⟩ := kv
    by_cases h : k0 = k
    · subst h
      have he : ainsert ((k0, v0) :: rest) k0 v = (k0, v) :: rest := by simp [ainsert]
      rw [he]
      simp only [List.map_cons, List.mem_cons]
      tauto
    · simp only [ainsert, if_neg h, List.map_cons, List.mem_cons, ih]
      tauto

theorem keys_nodup_ainsert (m : SMap) (k v : Str)
    (h : (m.map Prod.fst).Nodup) : ((ainsert m k v).map Prod.fst).Nodup := by
  induction m with
  | nil => simp [ainsert]
  | cons kv rest ih =>
    obtain ⟨k0, v0⟩ := kv
    rw [List.map_cons, List.nodup_cons] at h
    by_cases hk : k0 = k
    · subst hk
      simpa [ainsert] using h
    · simp only [ainsert, if_neg hk, List.map_cons, List.nodup_cons]
      refine ⟨?_, ih h.2⟩
      rw [mem_keys_ainsert]
      rintro (hm | rfl)
      · exact h.1 hm
      · exact hk rfl

theorem keysFilter_ainsert (m : SMap) (k v : Str) (q : Str → Bool) (hq : q k = false) :
    ((ainsert m k v).map Prod.fst).filter q = (m.map Prod.fst).filter q := by
  induction m with
  | nil => simp [ainsert, hq]
  | cons kv rest ih =>
    by_cases h : kv.1 = k
    · subst h
      simp [ainsert, hq, List.filter]
    · simp only [ainsert, if_neg h, List.map_cons, List.filter]
      rw [ih]

theorem alookup_mem (m : SMap) (k v : Str) (h : alookup m k = some v) :
    (k, v) ∈ m := by
  induction m with
  | nil => simp [alookup] at h
  | cons kv rest ih =>
    obtain ⟨k0, v0⟩ := kv
    by_cases hk : k0 = k
    · subst hk
      simp only [alookup, if_true] at h
      injection h with h'
      subst h'
      exact List.mem_cons_self _ _
    · simp only [alookup, if_neg hk] at h
      exact List.mem_cons_of_mem _ (ih h)

/-! `insertAll` lemmas (generic in the entry value type). -/

theorem alookup_insertAll_not_mem {α : Type} (h : α → Str) (l : List (Str × α))
    (init : SMap) (k : Str) (hk : k ∉ l.map Prod.fst) :
    alookup (insertAll h l init) k = alookup init k := by
  induction l generalizing init with
  | nil => simp [insertAll]
  | cons kv rest ih =>
    rw [List.map_cons, List.mem_cons, not_or] at hk
    show alookup (insertAll h rest (ainsert init kv.1 (h kv.2))) k = alookup init k
    rw [ih _ hk.2, alookup_ainsert_ne _ _ _ _ hk.1]

theorem alookup_insertAll_mem {α : Type} (h : α → Str) (l : List (Str × α))
    (init : SMap) (k : Str) (v : α) (hnd : (l.map Prod.fst).Nodup)
    (hmem : (k, v) ∈ l) : alookup (insertAll h l init) k = some (h v) := by
  induction l generalizing init with
  | nil => simp at hmem
  | cons kv rest ih =>
    rw [List.map_cons, List.nodup_cons] at hnd
    rcases List.mem_cons.mp hmem with heq | hmem'
    · subst heq
      show alookup (insertAll h rest (ainsert init k (h v))) k = some (h v)
      rw [alookup_insertAll_not_mem h rest _ k hnd.1, alookup_ainsert_self]
    · show alookup (insertAll h rest (ainsert init kv.1 (h kv.2))) k = some (h v)
      exact ih _ hnd.2 hmem'

theorem keys_nodup_insertAll {α : Type} (h : α → Str) (l : List (Str × α))
    (init : SMap) (hnd : (init.map Prod.fst).Nodup) :
    ((insertAll h l init).map Prod.fst).Nodup := by
  induction l generalizing init with
  | nil => exact hnd
  | cons kv rest ih =>
    exact ih _ (keys_nodup_ainsert init kv.1 (h kv.2) hnd)

theorem except_map_error {α β : Type} (f : α → β) (e : Except Str α) (n : Str) :
    e.map f = .error n ↔ e = .error n := by
  cases e <;> simp [Except.map]

theorem render_brace_none (map : SMap) (rest : Str) (h : takePH rest = none) :
    render map ('\x7b' :: '\x7b' :: rest) = .ok ('\x7b' :: '\x7b' :: rest) := by
  rw [render]
  split
  · rfl
  · rename_i nr heq
    rw [h] at heq
    cases heq

theorem render_brace_some (map : SMap) (rest : Str) (nr : Str × Str)
    (h : takePH rest = some nr) :
    render map ('\x7b' :: '\x7b' :: rest) =
      (match alookup map nr.1 with
      | none => Except.error nr.1
      | some v => (render map nr.2).map (fun out => v ++ out)) := by
  rw [render]
  split
  · rename_i heq
    rw [h] at heq
    cases heq
  · rename_i nr' heq
    rw [h] at heq
    cases heq
    rfl

theorem placeholders_brace_none (rest : Str) (h : takePH rest = none) :
    placeholders ('\x7b' :: '\x7b' :: rest) = [] := by
  rw [placeholders]
  split
  · rfl
  · rename_i nr heq
    rw [h] at heq
    cases heq

theorem placeholders_brace_some (rest : Str) (nr : Str × Str)
    (h : takePH rest = some nr) :
    placeholders ('\x7b' :: '\x7b' :: rest) = nr.1 :: placeholders nr.2 := by
  rw [placeholders]
  split
  · rename_i heq
    rw [h] at heq
    cases heq
  · rename_i nr' heq
    rw [h] at heq
    cases heq
    rfl

theorem render_other (map : SMap) (c : Char) (rest : Str)
    (h : ∀ r, c = '\x7b' → rest = '\x7b' :: r → False) :
    render map (c :: rest) = (render map rest).map (fun out => c :: out) := by
  rw [render.eq_def]
  split
  · rename_i heq
    cases heq
  · rename_i rest' heq
    injection heq with h1 h2
    exact (h rest' h1 h2).elim
  · rename_i c' rest' hne heq
    injection heq with h1 h2
    rw [h1, h2]

theorem placeholders_other (c : Char) (rest : Str)
    (h : ∀ r, c = '\x7b' → rest = '\x7b' :: r → False) :
    placeholders (c :: rest) = placeholders rest := by
  rw [placeholders.eq_def]
  split
  · rename_i heq
    cases heq
  · rename_i rest' heq
    injection heq with h1 h2
    exact (h rest' h1 h2).elim
  · rename_i c' rest' hne heq
    injection heq with h1 h2
    rw [h2]

/-- `render` fails with name `n` exactly when `n` is the first placeholder in
template scan order that has no key in the map. -/
theorem render_error_iff (map : SMap) (t n : Str) :
    render map t = .error n ↔ firstMissing map t = some n := by
  induction t using render.induct map with
  | case1 => simp [render, placeholders, firstMissing]
  | case2 rest h =>
    rw [render_brace_none map rest h]
    rw [firstMissing, placeholders_brace_none rest h]
    simp
  | case3 rest nr h hl =>
    rw [render_brace_some map rest nr h, hl]
    rw [firstMissing, placeholders_brace_some rest nr h]
    rw [List.find?_cons_of_pos _ (by simp [hl])]
    constructor
    · intro he; injection he with he'; rw [he']
    · intro he; injection he with he'; rw [he']
  | case4 rest nr h v hl ih =>
    rw [render_brace_some map rest nr h, hl]
    rw [firstMissing, placeholders_brace_some rest nr h]
    rw [List.find?_cons_of_neg _ (by simp [hl])]
    simp only [except_map_error]
    exact ih
  | case5 c rest h ih =>
    rw [render_other map c rest h]
    rw [firstMissing, placeholders_other c rest h]
    rw [except_map_error]
    exact ih

theorem get_section_keys_nodup (name : Str) (document : Toml) :
    ((get_section name document).map Prod.fst).Nodup := by
  rw [get_section]
  cases hg : document.get name with
  | none => simp
  | some c =>
    cases c with
    | vstr s => simp [Toml.as_table]
    | vtable t => simpa [Toml.as_table] using keys_nodup_insertAll asStrOrEmpty t [] (by simp)
    | vother => simp [Toml.as_table]

/-! Lemmas about the per-file build step and the build loop. -/

/-- A successful `computeOutput` means the kind token was one of the three
valid kinds. -/
theorem computeOutput_ok_kind (E : Ext) (cwd : Str) (fs : SMap) (f c o : Str)
    (h : computeOutput E cwd fs f c = .ok o) :
    ∃ k, kindToken f = some k ∧ (k = cssTok ∨ k = htmlTok ∨ k = jsTok) := by
  cases hk : kindToken f with
  | none =>
    simp only [computeOutput, hk] at h
    exact Except.noConfusion h
  | some ft =>
    simp only [computeOutput, hk] at h
    by_cases h1 : ft = cssTok
    · exact ⟨ft, rfl, Or.inl h1⟩
    · by_cases h2 : ft = htmlTok
      · exact ⟨ft, rfl, Or.inr (Or.inl h2)⟩
      · by_cases h3 : ft = jsTok
        · exact ⟨ft, rfl, Or.inr (Or.inr h3)⟩
        · rw [if_neg h1, if_neg h2, if_neg h3] at h
          cases h

/-- The non-aliasing condition on a parser bundle: no template path any
parseable document can name resolves into the htdocs output root.  The real
program does not enforce this; a config value such as "../htdocs/p.html"
violates it and lets the build overwrite its own template. -/
def safeTemplates (E : Ext) (cwd : Str) : Prop :=
  ∀ c document t, E.parse c = .ok document →
    alookup (get_section (("config").data) document) (("template").data) = some t →
    startsWithC (normalizePath (cwd ++ templatesDir ++ t)) (cwd ++ htdocsDir) = false

/-- Under `safeTemplates`, `generate_html` reads the filesystem only at paths
outside the htdocs root. -/
theorem generate_html_agree (E : Ext) (cwd : Str) (fs g : SMap) (contents : Str)
    (hSafe : safeTemplates E cwd)
    (hT : ∀ p, startsWithC p (cwd ++ htdocsDir) = false → alookup g p = alookup fs p) :
    generate_html E cwd g contents = generate_html E cwd fs contents := by
  cases hp : E.parse contents with
  | error e => simp only [generate_html, hp]
  | ok document =>
    simp only [generate_html, hp]
    cases ht : alookup (get_section (("config").data) document) (("template").data) with
    | none => rfl
    | some t =>
      simp only [hT _ (hSafe contents document t hp ht)]

/-- Under `safeTemplates`, `computeOutput` reads the filesystem only at paths
outside the htdocs root. -/
theorem computeOutput_agree (E : Ext) (cwd : Str) (fs g : SMap) (f c : Str)
    (hSafe : safeTemplates E cwd)
    (hT : ∀ p, startsWithC p (cwd ++ htdocsDir) = false → alookup g p = alookup fs p) :
    computeOutput E cwd g f c = computeOutput E cwd fs f c := by
  rw [computeOutput, computeOutput]
  cases kindToken f with
  | none => rfl
  | some ft =>
    by_cases h1 : ft = cssTok
    · simp [h1]
    · by_cases h2 : ft = htmlTok
      · simp [h1, h2, generate_html_agree E cwd fs g c hSafe hT]
      · simp [h1, h2]

/-- The paths whose contents the build loop may read: sources (ending in
".sssg") and any path outside the htdocs output root (under `safeTemplates`,
every template read is at such a path). -/
def readAgree (cwd : Str) (fs g : SMap) : Prop :=
  ∀ p, (endsWithC p sssgSuffix = true ∨ startsWithC p (cwd ++ htdocsDir) = false) →
    alookup g p = alookup fs p

theorem readAgree_refl (cwd : Str) (fs : SMap) : readAgree cwd fs fs :=
  fun _ _ => rfl

theorem readAgree_trans (cwd : Str) (fs g h : SMap)
    (h1 : readAgree cwd fs g) (h2 : readAgree cwd g h) : readAgree cwd fs h :=
  fun p hp => (h2 p hp).trans (h1 p hp)

/-- A failing `buildFile` leaves the filesystem untouched. -/
theorem buildFile_error_eq (E : Ext) (cwd : Str) (fs : SMap) (f : Str)
    (fs2 : SMap) (e : Str) (h : buildFile E cwd fs f = (fs2, some e)) : fs2 = fs := by
  cases hc : alookup fs f with
  | none =>
    simp only [buildFile, hc] at h
    exact (Prod.mk.injEq _ _ _ _ ▸ h).1.symm
  | some contents =>
    cases ho : computeOutput E cwd fs f contents with
    | ok o =>
      simp only [buildFile, hc, ho] at h
      exact absurd (Prod.mk.injEq _ _ _ _ ▸ h).2 (by simp)
    | error ge =>
      cases ge with
      | fatal m =>
        simp only [buildFile, hc, ho] at h
        exact (Prod.mk.injEq _ _ _ _ ▸ h).1.symm
      | soft m =>
        simp only [buildFile, hc, ho] at h
        exact (Prod.mk.injEq _ _ _ _ ▸ h).1.symm

/-- A successful `buildFile` is exactly one write at the artifact path. -/
theorem buildFile_success (E : Ext) (cwd : Str) (fs : SMap) (f : Str)
    (fs2 : SMap) (h : buildFile E cwd fs f = (fs2, none)) :
    ∃ c o, alookup fs f = some c ∧ computeOutput E cwd fs f c = .ok o ∧
      fs2 = ainsert fs (artifactOf f) o := by
  cases hc : alookup fs f with
  | none =>
    simp only [buildFile, hc] at h
    exact absurd (Prod.mk.injEq _ _ _ _ ▸ h).2 (by simp)
  | some contents =>
    cases ho : computeOutput E cwd fs f contents with
    | ok o =>
      simp only [buildFile, hc, ho] at h
      exact ⟨contents, o, rfl, ho, (Prod.mk.injEq _ _ _ _ ▸ h).1.symm⟩
    | error ge =>
      cases ge with
      | fatal m =>
        simp only [buildFile, hc, ho] at h
        exact absurd (Prod.mk.injEq _ _ _ _ ▸ h).2 (by simp)
      | soft m =>
        simp only [buildFile, hc, ho] at h
        exact absurd (Prod.mk.injEq _ _ _ _ ▸ h).2 (by simp)

/-- A filesystem that agrees on all read paths drives `buildFile` to the same
abort message. -/
theorem buildFile_sim_error (E : Ext) (cwd : Str) (fs g : SMap) (f : Str)
    (hSafe : safeTemplates E cwd)
    (hra : readAgree cwd fs g) (hf : endsWithC f sssgSuffix = true)
    (fs2 : SMap) (e : Str) (h : buildFile E cwd fs f = (fs2, some e)) :
    buildFile E cwd g f = (g, some e) := by
  have hTa : ∀ p, startsWithC p (cwd ++ htdocsDir) = false → alookup g p = alookup fs p :=
    fun p hp => hra p (Or.inr hp)
  have hlk : alookup g f = alookup fs f := hra f (Or.inl hf)
  cases hc : alookup fs f with
  | none =>
    simp only [buildFile, hc] at h
    simp only [buildFile, hlk, hc]
    have h2 := congrArg Prod.snd h
    simp only at h2
    injection h2 with h3
    rw [h3]
  | some contents =>
    cases ho : computeOutput E cwd fs f contents with
    | ok o =>
      simp only [buildFile, hc, ho] at h
      exact absurd (Prod.mk.injEq _ _ _ _ ▸ h).2 (by simp)
    | error ge =>
      have hco : computeOutput E cwd g f contents = .error ge :=
        (computeOutput_agree E cwd fs g f contents hSafe hTa).trans ho
      cases ge with
      | fatal m =>
        simp only [buildFile, hc, ho] at h
        simp only [buildFile, hlk, hc, hco]
        have h2 := congrArg Prod.snd h
        simp only at h2
        injection h2 with h3
        rw [h3]
      | soft m =>
        simp only [buildFile, hc, ho] at h
        simp only [buildFile, hlk, hc, hco]
        have h2 := congrArg Prod.snd h
        simp only at h2
        injection h2 with h3
        rw [h3]

/-- A filesystem that agrees on all read paths drives `buildFile` to the same
write. -/
theorem buildFile_sim_ok (E : Ext) (cwd : Str) (fs g : SMap) (f : Str)
    (hSafe : safeTemplates E cwd)
    (hra : readAgree cwd fs g) (hf : endsWithC f sssgSuffix = true)
    (fs2 : SMap) (h : buildFile E cwd fs f = (fs2, none)) :
    ∃ c o, alookup fs f = some c ∧ computeOutput E cwd fs f c = .ok o ∧
      fs2 = ainsert fs (artifactOf f) o ∧
      buildFile E cwd g f = (ainsert g (artifactOf f) o, none) := by
  have hTa : ∀ p, startsWithC p (cwd ++ htdocsDir) = false → alookup g p = alookup fs p :=
    fun p hp => hra p (Or.inr hp)
  have hlk : alookup g f = alookup fs f := hra f (Or.inl hf)
  rcases buildFile_success E cwd fs f fs2 h with ⟨c, o, hc, ho, hfs2⟩
  refine ⟨c, o, hc, ho, hfs2, ?_⟩
  have hco : computeOutput E cwd g f c = .ok o :=
    (computeOutput_agree E cwd fs g f c hSafe hTa).trans ho
  simp only [buildFile, hlk, hc, hco]

/-- On a successful step of a source file the written artifact path is not a
read path: it does not end in ".sssg", and it stays under the htdocs root. -/
theorem artifact_write_safe (E : Ext) (cwd : Str) (fs : SMap) (f c o : Str)
    (hsrc : srcFile cwd f = true)
    (hok : computeOutput E cwd fs f c = .ok o) :
    endsWithC (artifactOf f) sssgSuffix = false ∧
      startsWithC (artifactOf f) (cwd ++ htdocsDir) = true := by
  rcases Bool.and_eq_true_iff.mp hsrc with ⟨hstart, hend⟩
  rcases computeOutput_ok_kind E cwd fs f c o hok with ⟨k, hk, hv⟩
  exact ⟨artifact_not_sssg f k hend hk hv, artifact_htdocs_prefix cwd f hstart hend⟩

/-- Writing at a non-read path preserves read-path agreement. -/
theorem readAgree_ainsert (cwd : Str) (fs : SMap) (a o : Str)
    (h1 : endsWithC a sssgSuffix = false)
    (h2 : startsWithC a (cwd ++ htdocsDir) = true) :
    readAgree cwd fs (ainsert fs a o) := by
  intro p hp
  have hpa : p ≠ a := by
    rintro rfl
    rcases hp with hp | hp
    · rw [h1] at hp; cases hp
    · rw [h2] at hp; cases hp
  exact alookup_ainsert_ne fs a o p hpa

/-- Whether a source file predicate gives both suffix and prefix facts. -/
theorem srcFile_parts (cwd f : Str) (h : srcFile cwd f = true) :
    startsWithC f (cwd ++ htdocsDir) = true ∧ endsWithC f sssgSuffix = true :=
  Bool.and_eq_true_iff.mp h

/-- The build loop leaves every read path (source or template) untouched. -/
theorem buildGo_readAgree (E : Ext) (cwd : Str) (l : List Str) :
    ∀ (fs fs' : SMap) (e : Option Str),
      (∀ f ∈ l, srcFile cwd f = true) → buildGo E cwd l fs = (fs', e) →
      readAgree cwd fs fs' := by
  induction l with
  | nil =>
    intro fs fs' e hsrc h
    have h' : (fs, (none : Option Str)) = (fs', e) := h
    cases h'
    exact readAgree_refl cwd fs
  | cons f rest ih =>
    intro fs fs' e hsrc h
    have hf : srcFile cwd f = true := hsrc f (List.mem_cons_self f rest)
    rw [buildGo] at h
    cases hbf : buildFile E cwd fs f with
    | mk fs1 e1 =>
      rw [hbf] at h
      cases e1 with
      | none =>
        have h' : buildGo E cwd rest fs1 = (fs', e) := h
        rcases buildFile_success E cwd fs f fs1 hbf with ⟨c, o, hc, ho, hfs1⟩
        have hart := artifact_write_safe E cwd fs f c o hf ho
        have hra1 : readAgree cwd fs fs1 :=
          hfs1 ▸ readAgree_ainsert cwd fs (artifactOf f) o hart.1 hart.2
        exact readAgree_trans cwd fs fs1 fs' hra1
          (ih fs1 fs' e (fun g hg => hsrc g (List.mem_cons_of_mem f hg)) h')
      | some m =>
        have h' : (fs1, some m) = (fs', e) := h
        have hfs : fs1 = fs := buildFile_error_eq E cwd fs f fs1 m hbf
        have hfs2 : fs1 = fs' := congrArg Prod.fst h'
        rw [← hfs2, hfs]
        exact readAgree_refl cwd fs

/-- The build loop preserves the list of marker-suffixed source files. -/
theorem buildGo_keys (E : Ext) (cwd : Str) (l : List Str) :
    ∀ (fs fs' : SMap) (e : Option Str),
      (∀ f ∈ l, srcFile cwd f = true) → buildGo E cwd l fs = (fs', e) →
      sssgFiles cwd fs' = sssgFiles cwd fs := by
  induction l with
  | nil =>
    intro fs fs' e hsrc h
    have h' : (fs, (none : Option Str)) = (fs', e) := h
    cases h'
    rfl
  | cons f rest ih =>
    intro fs fs' e hsrc h
    have hf : srcFile cwd f = true := hsrc f (List.mem_cons_self f rest)
    rw [buildGo] at h
    cases hbf : buildFile E cwd fs f with
    | mk fs1 e1 =>
      rw [hbf] at h
      cases e1 with
      | none =>
        have h' : buildGo E cwd rest fs1 = (fs', e) := h
        rcases buildFile_success E cwd fs f fs1 hbf with ⟨c, o, hc, ho, hfs1⟩
        have hart := artifact_write_safe E cwd fs f c o hf ho
        have hsa : srcFile cwd (artifactOf f) = false := by
          rw [srcFile, hart.1, Bool.and_false]
        have hk1 : sssgFiles cwd fs1 = sssgFiles cwd fs := by
          rw [hfs1]
          exact keysFilter_ainsert fs (artifactOf f) o (srcFile cwd) hsa
        rw [ih fs1 fs' e (fun g hg => hsrc g (List.mem_cons_of_mem f hg)) h', hk1]
      | some m =>
        have h' : (fs1, some m) = (fs', e) := h
        have hfs : fs1 = fs := buildFile_error_eq E cwd fs f fs1 m hbf
        have hfs2 : fs1 = fs' := congrArg Prod.fst h'
        rw [← hfs2, hfs]

/-- Paths present in the filesystem stay present through the build loop. -/
theorem buildGo_present (E : Ext) (cwd : Str) (l : List Str) :
    ∀ (fs fs' : SMap) (e : Option Str) (p v : Str),
      buildGo E cwd l fs = (fs', e) → alookup fs p = some v →
      ∃ w, alookup fs' p = some w := by
  induction l with
  | nil =>
    intro fs fs' e p v h hp
    have h' : (fs, (none : Option Str)) = (fs', e) := h
    cases h'
    exact ⟨v, hp⟩
  | cons f rest ih =>
    intro fs fs' e p v h hp
    rw [buildGo] at h
    cases hbf : buildFile E cwd fs f with
    | mk fs1 e1 =>
      rw [hbf] at h
      cases e1 with
      | none =>
        have h' : buildGo E cwd rest fs1 = (fs', e) := h
        rcases buildFile_success E cwd fs f fs1 hbf with ⟨c, o, hc, ho, hfs1⟩
        rcases alookup_ainsert_present fs (artifactOf f) o p v hp with ⟨w, hw⟩
        exact ih fs1 fs' e p w h' (hfs1 ▸ hw)
      | some m =>
        have h' : (fs1, some m) = (fs', e) := h
        have hfs : fs1 = fs := buildFile_error_eq E cwd fs f fs1 m hbf
        have hfs2 : fs1 = fs' := congrArg Prod.fst h'
        rw [← hfs2, hfs]
        exact ⟨v, hp⟩

/-- Simulation: running the loop from any filesystem that agrees on all read
paths performs the same writes and also succeeds. -/
theorem buildGo_sim (E : Ext) (cwd : Str) (hSafe : safeTemplates E cwd) (l : List Str) :
    ∀ (fs g fs' : SMap),
      (∀ f ∈ l, srcFile cwd f = true) → readAgree cwd fs g →
      buildGo E cwd l fs = (fs', none) →
      ∃ g', buildGo E cwd l g = (g', none) ∧
        ∀ p, (alookup fs' p = alookup fs p ∧ alookup g' p = alookup g p) ∨
          alookup g' p = alookup fs' p := by
  induction l with
  | nil =>
    intro fs g fs' hsrc hra h
    have h' : (fs, (none : Option Str)) = (fs', none) := h
    have hfs : fs = fs' := congrArg Prod.fst h'
    subst hfs
    exact ⟨g, rfl, fun p => Or.inl ⟨rfl, rfl⟩⟩
  | cons f rest ih =>
    intro fs g fs' hsrc hra h
    have hf : srcFile cwd f = true := hsrc f (List.mem_cons_self f rest)
    rcases srcFile_parts cwd f hf with ⟨hst, hend⟩
    rw [buildGo] at h
    cases hbf : buildFile E cwd fs f with
    | mk fs1 e1 =>
      rw [hbf] at h
      cases e1 with
      | none =>
        have h' : buildGo E cwd rest fs1 = (fs', none) := h
        rcases buildFile_sim_ok E cwd fs g f hSafe hra hend fs1 hbf with ⟨c, o, hc, ho, hfs1, hbfg⟩
        have hart := artifact_write_safe E cwd fs f c o hf ho
        have hra1 : readAgree cwd fs fs1 :=
          hfs1 ▸ readAgree_ainsert cwd fs (artifactOf f) o hart.1 hart.2
        have hrag1 : readAgree cwd fs1 (ainsert g (artifactOf f) o) := by
          intro p hp
          have hpa : p ≠ artifactOf f := by
            rintro rfl
            rcases hp with hp | hp
            · rw [hart.1] at hp; cases hp
            · rw [hart.2] at hp; cases hp
          rw [alookup_ainsert_ne g (artifactOf f) o p hpa, hra p hp, ← hra1 p hp]
        rcases ih fs1 (ainsert g (artifactOf f) o) fs'
            (fun x hx => hsrc x (List.mem_cons_of_mem f hx)) hrag1 h' with ⟨g', hgo, hdisj⟩
        refine ⟨g', ?_, ?_⟩
        · rw [buildGo, hbfg]
          exact hgo
        · intro p
          by_cases hpa : p = artifactOf f
          · rcases hdisj p with ⟨hl, hr⟩ | hr
            · right
              rw [hr, hl, hpa, hfs1]
              rw [alookup_ainsert_self, alookup_ainsert_self]
            · right
              rw [hr]
          · rcases hdisj p with ⟨hl, hr⟩ | hr
            · left
              constructor
              · rw [hl, hfs1, alookup_ainsert_ne fs (artifactOf f) o p hpa]
              · rw [hr, alookup_ainsert_ne g (artifactOf f) o p hpa]
            · right
              rw [hr]
      | some m =>
        have h' : (fs1, some m) = (fs', none) := h
        have hcon := congrArg Prod.snd h'
        exact Option.noConfusion hcon

/-- Fail-fast decomposition: an aborted run splits the source list at the
failing file; everything before it was built, nothing from it on was
written. -/
theorem buildGo_abort (E : Ext) (cwd : Str) (l : List Str) :
    ∀ (fs fs' : SMap) (e : Str),
      (∀ f ∈ l, srcFile cwd f = true) → l.Nodup →
      buildGo E cwd l fs = (fs', some e) →
      ∃ pre f post fsPre,
        l = pre ++ f :: post ∧
        buildGo E cwd pre fs = (fsPre, none) ∧
        buildFile E cwd fsPre f = (fsPre, some e) ∧
        fs' = fsPre ∧
        (∀ g ∈ pre, ∃ o, alookup fs' (artifactOf g) = some o) ∧
        (∀ g ∈ f :: post, alookup fs' (artifactOf g) = alookup fs (artifactOf g)) := by
  induction l with
  | nil =>
    intro fs fs' e hsrc hnd h
    have h' : (fs, (none : Option Str)) = (fs', some e) := h
    exact Option.noConfusion (congrArg Prod.snd h')
  | cons f rest ih =>
    intro fs fs' e hsrc hnd h
    have hf : srcFile cwd f = true := hsrc f (List.mem_cons_self f rest)
    rcases srcFile_parts cwd f hf with ⟨hst, hend⟩
    rw [buildGo] at h
    cases hbf : buildFile E cwd fs f with
    | mk fs1 e1 =>
      rw [hbf] at h
      cases e1 with
      | some m =>
        have h' : (fs1, some m) = (fs', some e) := h
        have hfs'1 : fs1 = fs' := congrArg Prod.fst h'
        have h2 : some m = some e := congrArg Prod.snd h'
        have hme : m = e := by injection h2
        have hfs : fs1 = fs := buildFile_error_eq E cwd fs f fs1 m hbf
        refine ⟨[], f, rest, fs, rfl, rfl, ?_, ?_, ?_, ?_⟩
        · rw [hfs, hme] at hbf
          exact hbf
        · rw [← hfs'1, hfs]
        · intro g hg
          exact absurd hg (List.not_mem_nil g)
        · intro g hg
          rw [← hfs'1, hfs]
      | none =>
        have h' : buildGo E cwd rest fs1 = (fs', some e) := h
        rcases buildFile_success E cwd fs f fs1 hbf with ⟨c, o, hc, ho, hfs1⟩
        rcases ih fs1 fs' e (fun x hx => hsrc x (List.mem_cons_of_mem f hx))
            (List.nodup_cons.mp hnd).2 h' with
          ⟨pre', f0, post', fsPre, hl, hgoPre, hbf0, hfs', hpres, hunch⟩
        refine ⟨f :: pre', f0, post', fsPre, by rw [hl, List.cons_append], ?_, hbf0, hfs', ?_, ?_⟩
        · rw [buildGo, hbf]
          exact hgoPre
        · intro g hg
          rcases List.mem_cons.mp hg with rfl | hg'
          · have hin : alookup fs1 (artifactOf g) = some o := by
              rw [hfs1]
              exact alookup_ainsert_self fs (artifactOf g) o
            exact buildGo_present E cwd rest fs1 fs' (some e) (artifactOf g) o h' hin
          · exact hpres g hg'
        · intro g hg
          have hgrest : g ∈ rest := by
            rw [hl]
            rcases List.mem_cons.mp hg with rfl | hg'
            · exact List.mem_append_right pre' (List.mem_cons_self g post')
            · exact List.mem_append_right pre' (List.mem_cons_of_mem f0 hg')
          have hgne : g ≠ f := by
            rintro rfl
            exact (List.nodup_cons.mp hnd).1 hgrest
          have hgend : endsWithC g sssgSuffix = true :=
            (srcFile_parts cwd g (hsrc g (List.mem_cons_of_mem f hgrest))).2
          have hane : artifactOf g ≠ artifactOf f := by
            intro hae
            exact hgne (artifact_inj g f hgend hend hae)
          rw [hunch g hg, hfs1, alookup_ainsert_ne fs (artifactOf f) o (artifactOf g) hane]

/-! Concrete fixtures for instantiating the theorems below on explicit inputs. -/

/-- A sample parsed document: a config section with a template key, a
plaintext section with a string entry and a non-string entry, a markdown
section colliding with the plaintext key, and a non-table section. -/
def sampleDoc : Toml :=
  .vtable [
    ((("config").data), .vtable [((("template").data), .vstr (("base.tmpl").data))]),
    ((("plaintext").data), .vtable [((("title").data), .vstr (("Hi").data)),
      ((("num").data), .vother)]),
    ((("markdown").data), .vtable [((("title").data), .vstr (("*md*").data))]),
    ((("nontable").data), .vstr (("x").data))
  ]

/-- A parsed document whose config section lacks the template key. -/
def docNoTpl : Toml := .vtable [((("config").data), .vtable [])]

/-- A sample external-capability bundle: parsing always yields `sampleDoc`,
markdown rendering wraps in a paragraph, the minifiers are the identity. -/
def E0 : Ext where
  parse := fun _ => .ok sampleDoc
  markdownToHtml := fun s => (("<p>").data) ++ s ++ (("</p>").data)
  cssMinify := fun s => .ok s
  jsMinify := fun s => s
  htmlMinify := fun s => s

/-- Like `E0` but parsing yields the document without a template key. -/
def EB : Ext := { E0 with parse := fun _ => .ok docNoTpl }

/-- Like `E0` but parsing fails with a typical TOML diagnostic. -/
def E8 : Ext :=
  { E0 with parse := fun _ =>
      .error (("expected an equals, found an identifier at line 1 column 5").data) }

/-- A one-source-file tree: a valid JS source under htdocs. -/
def fsJ : SMap := [((("/htdocs/a.js.sssg").data), (("x").data))]

/-- A two-source-file tree: a valid JS source, then a source with a bad kind. -/
def fsFail : SMap :=
  [((("/htdocs/a.js.sssg").data), (("x").data)),
   ((("/htdocs/b.foo.sssg").data), (("y").data))]

/-- An HTML source plus a template referencing an unmapped placeholder. -/
def fsT : SMap :=
  [((("/htdocs/p.html.sssg").data), (("c").data)),
   ((("/templates/base.tmpl").data), (("\x7b\x7bmissing\x7d\x7d").data))]

/-- An HTML source alone (used with the failing parser `E8`). -/
def fsH8 : SMap := [((("/htdocs/p.html.sssg").data), (("c").data))]

/-- A read function for the server fixtures. -/
def rd0 : Str → Except Str Str := fun p =>
  if p = (("/htdocs/dir/index.html").data) then .ok (("OK").data)
  else .error (("No such file or directory (os error 2)").data)

/-! The claim theorems. -/

/-- Claim C1: for every raw request path string, the sanitizer replaces every
occurrence of two consecutive '.' characters with a single '_' before any
filesystem access, so the sanitized path contains no ".." substring and the
file path resolved from it cannot escape the htdocs output root (it is the
htdocs root followed by a remainder with no ".." in it). -/
theorem claim1_sanitise_traversal_safe (cwd raw : Str) :
    (¬ (['.', '.'] <:+: sanitise raw)) ∧
    (∀ f, servedFilename cwd raw = some f →
      ∃ rest, f = (cwd ++ htdocsDir) ++ rest ∧ ¬ (['.', '.'] <:+: rest)) := by
  have hno : hasDotDot (sanitise raw) = false := sanitise_no_dotdot raw
  refine ⟨sanitise_not_infix_dotdot raw, ?_⟩
  intro f hf
  by_cases h1 : endsWithC (sanitise raw) sssgSuffix
  · simp [servedFilename, h1] at hf
  · by_cases h2 : endsWithC (sanitise raw) ['/']
    · simp only [servedFilename, h1, if_false, h2, if_true, Option.some.injEq,
        Bool.false_eq_true] at hf
      refine ⟨sanitise raw ++ indexFile, ?_, ?_⟩
      · rw [← hf]
        simp [List.append_assoc]
      · intro hcon
        have hdd : hasDotDot (sanitise raw ++ indexFile) = false :=
          hasDotDot_append (sanitise raw) indexFile hno (by decide) (by decide)
        have := (hasDotDot_iff (sanitise raw ++ indexFile)).mpr hcon
        rw [hdd] at this
        exact Bool.false_ne_true this
    · simp only [servedFilename, h1, if_false, h2, if_true, Option.some.injEq,
        Bool.false_eq_true] at hf
      refine ⟨sanitise raw, ?_, ?_⟩
      · rw [← hf]
      · intro hcon
        have := (hasDotDot_iff (sanitise raw)).mpr hcon
        rw [hno] at this
        exact Bool.false_ne_true this

/-- Witness for C1 at the spec's own example: a request for
"/../../etc/passwd" resolves under the htdocs root with no ".." left. -/
theorem claim1_sanitise_traversal_safe_witness :
    ∃ rest, (("/w/htdocs/_/_/etc/passwd").data) = ((("/w").data) ++ htdocsDir) ++ rest ∧
      ¬ (['.', '.'] <:+: rest) :=
  (claim1_sanitise_traversal_safe (("/w").data) (("/../../etc/passwd").data)).2
    (("/w/htdocs/_/_/etc/passwd").data) (by decide)

/-- Claim C3: a key present in both the plaintext and the markdown sections
resolves in the merged placeholder map to the markdown-rendered value, never
the plaintext value. -/
theorem claim3_markdown_overrides (E : Ext) (document : Toml) (k v w : Str)
    (hp : alookup (get_section (("plaintext").data) document) k = some w)
    (hm : alookup (get_section (("markdown").data) document) k = some v) :
    alookup (mergedMap E document) k = some (E.markdownToHtml v) ∧
      (E.markdownToHtml v ≠ w → alookup (mergedMap E document) k ≠ some w) := by
  have hnd := get_section_keys_nodup (("markdown").data) document
  have hmem := alookup_mem (get_section (("markdown").data) document) k v hm
  have hmain : alookup (mergedMap E document) k = some (E.markdownToHtml v) :=
    alookup_insertAll_mem E.markdownToHtml (get_section (("markdown").data) document)
      (get_section (("plaintext").data) document) k v hnd hmem
  refine ⟨hmain, ?_⟩
  intro hne hcon
  rw [hmain] at hcon
  injection hcon with hc
  exact hne hc

/-- Witness for C3: in `sampleDoc` the key "title" is in both sections and the
merged map holds the markdown-rendered value, not "Hi". -/
theorem claim3_markdown_overrides_witness :
    alookup (mergedMap E0 sampleDoc) (("title").data) =
      some ((("<p>*md*</p>").data)) ∧
    alookup (mergedMap E0 sampleDoc) (("title").data) ≠ some ((("Hi").data)) := by
  have h := claim3_markdown_overrides E0 sampleDoc (("title").data)
    (("*md*").data) (("Hi").data) (by decide) (by decide)
  exact ⟨h.1, h.2 (by decide)⟩

/-- Claim C7: section extraction is total and tolerant: an absent section
yields an empty mapping, a non-table section yields an empty mapping, and an
entry whose value is not a string is coerced to the empty string. -/
theorem claim7_get_section_tolerant (name : Str) (document : Toml) :
    (document.get name = none → get_section name document = []) ∧
    (∀ c, document.get name = some c → c.as_table = none →
      get_section name document = []) ∧
    (∀ entries k v, document.get name = some (.vtable entries) →
      (entries.map Prod.fst).Nodup → (k, v) ∈ entries →
      alookup (get_section name document) k = some ((v.as_str).getD [])) := by
  refine ⟨?_, ?_, ?_⟩
  · intro hg
    simp [get_section, hg]
  · intro c hg ht
    simp [get_section, hg, ht]
  · intro entries k v hg hnd hmem
    simp only [get_section, hg, Toml.as_table]
    exact alookup_insertAll_mem asStrOrEmpty entries [] k v hnd hmem

/-- Witness for C7 on `sampleDoc`: an absent section, a non-table section, and
a non-string entry coerced to the empty string. -/
theorem claim7_get_section_tolerant_witness :
    get_section (("zzz").data) sampleDoc = [] ∧
    get_section (("nontable").data) sampleDoc = [] ∧
    alookup (get_section (("plaintext").data) sampleDoc) (("num").data) =
      some [] := by
  refine ⟨?_, ?_, ?_⟩
  · exact (claim7_get_section_tolerant (("zzz").data) sampleDoc).1 (by rfl)
  · exact (claim7_get_section_tolerant (("nontable").data) sampleDoc).2.1
      (.vstr (("x").data)) (by rfl) (by rfl)
  · exact (claim7_get_section_tolerant (("plaintext").data) sampleDoc).2.2
      [((("title").data), .vstr (("Hi").data)), ((("num").data), .vother)]
      (("num").data) .vother (by rfl) (by decide)
      (List.Mem.tail _ (List.Mem.head _))

/-- Claim C4: a sanitized path ending in ".sssg" yields a 404 with no file
read (the response does not depend on the read function); a path ending in
'/' resolves to the htdocs path with "index.html" appended; any other path
resolves under the htdocs root; a successful read is served as a 200 with the
raw bytes and a failed read as a 404 whose body names the resolved path and
the underlying error. -/
theorem claim4_serve_resolution (rd : Str → Except Str Str) (cwd raw : Str) :
    (endsWithC (sanitise raw) sssgSuffix = true →
      serveRequest rd cwd raw = ⟨404, notFoundMsg⟩) ∧
    (endsWithC (sanitise raw) sssgSuffix = false →
      endsWithC (sanitise raw) ['/'] = true →
      servedFilename cwd raw = some (cwd ++ htdocsDir ++ sanitise raw ++ indexFile)) ∧
    (endsWithC (sanitise raw) sssgSuffix = false →
      endsWithC (sanitise raw) ['/'] = false →
      servedFilename cwd raw = some (cwd ++ htdocsDir ++ sanitise raw)) ∧
    (∀ f, servedFilename cwd raw = some f →
      (∀ bytes, rd f = .ok bytes → serveRequest rd cwd raw = ⟨200, bytes⟩) ∧
      (∀ e, rd f = .error e →
        serveRequest rd cwd raw = ⟨404, readFileMsg f e⟩ ∧
        f <:+: readFileMsg f e ∧ e <:+: readFileMsg f e)) := by
  refine ⟨?_, ?_, ?_, ?_⟩
  · intro h1
    simp [serveRequest, servedFilename, h1]
  · intro h1 h2
    simp [servedFilename, h1, h2]
  · intro h1 h2
    simp [servedFilename, h1, h2]
  · intro f hf
    constructor
    · intro bytes hb
      simp [serveRequest, hf, hb]
    · intro e he
      refine ⟨by simp [serveRequest, hf, he], ?_, ?_⟩
      · exact ⟨(("Error reading file ").data) ++ sq,
          sq ++ ((" (").data) ++ e ++ ((")").data),
          by simp [readFileMsg, List.append_assoc]⟩
      · exact ⟨(("Error reading file ").data) ++ sq ++ f ++ sq ++ ((" (").data),
          ((")").data),
          by simp [readFileMsg, List.append_assoc]⟩

set_option maxRecDepth 8000 in
/-- Witness for C4: a ".sssg" request gets the fixed 404, a directory request
serves the index file, a missing file gets the diagnostic 404. -/
theorem claim4_serve_resolution_witness :
    serveRequest rd0 [] (("/x.sssg").data) = ⟨404, notFoundMsg⟩ ∧
    serveRequest rd0 [] (("/dir/").data) = ⟨200, (("OK").data)⟩ ∧
    serveRequest rd0 [] (("/missing.html").data) =
      ⟨404, readFileMsg (("/htdocs/missing.html").data)
        (("No such file or directory (os error 2)").data)⟩ := by
  refine ⟨?_, ?_, ?_⟩
  · exact (claim4_serve_resolution rd0 [] (("/x.sssg").data)).1 (by decide)
  · exact ((claim4_serve_resolution rd0 [] (("/dir/").data)).2.2.2
      (("/htdocs/dir/index.html").data) (by decide)).1 (("OK").data) (by rfl)
  · exact (((claim4_serve_resolution rd0 [] (("/missing.html").data)).2.2.2
      (("/htdocs/missing.html").data) (by decide)).2
      (("No such file or directory (os error 2)").data) (by rfl)).1

/-- Claim C5: the kind is the second-to-last dot-delimited component of the
filename; a missing or unrecognized kind token makes the step fail fatally
with a message naming the filename; "css", "html" and "js" dispatch to the
CSS minifier, the HTML generator and the JS minifier respectively; and a
fatal output aborts the per-file step without writing. -/
theorem claim5_kind_dispatch (E : Ext) (cwd : Str) (fs : SMap)
    (filename contents : Str) :
    (kindToken filename = none →
      computeOutput E cwd fs filename contents = .error (.fatal (badFormMsg filename))) ∧
    (∀ k, kindToken filename = some k → k ≠ cssTok → k ≠ htmlTok → k ≠ jsTok →
      computeOutput E cwd fs filename contents = .error (.fatal (badFormMsg filename))) ∧
    (filename <:+: badFormMsg filename) ∧
    (kindToken filename = some cssTok →
      computeOutput E cwd fs filename contents = (E.cssMinify contents).mapError GenErr.soft) ∧
    (kindToken filename = some htmlTok →
      computeOutput E cwd fs filename contents = generate_html E cwd fs contents) ∧
    (kindToken filename = some jsTok →
      computeOutput E cwd fs filename contents = .ok (E.jsMinify contents)) ∧
    (∀ m, alookup fs filename = some contents →
      computeOutput E cwd fs filename contents = .error (.fatal m) →
      buildFile E cwd fs filename = (fs, some m)) := by
  refine ⟨?_, ?_, ?_, ?_, ?_, ?_, ?_⟩
  · intro hk
    simp [computeOutput, hk]
  · intro k hk h1 h2 h3
    simp only [computeOutput, hk]
    rw [if_neg h1, if_neg h2, if_neg h3]
  · exact ⟨(("Filename ").data) ++ sq,
      sq ++ ((" not in the form <name>.(css|html|js).sssg").data),
      by simp [badFormMsg, List.append_assoc]⟩
  · intro hk
    simp only [computeOutput, hk]
    simp
  · intro hk
    simp only [computeOutput, hk]
    rw [if_neg (by decide)]
    simp
  · intro hk
    simp only [computeOutput, hk]
    rw [if_neg (by decide), if_neg (by decide)]
    simp
  · intro m hc hco
    simp only [buildFile, hc, hco]

/-- Witness for C5: the kind token "foo" is rejected fatally and aborts the
step without writing; the kind token "js" dispatches to the JS minifier. -/
theorem claim5_kind_dispatch_witness :
    computeOutput E0 [] fsFail (("/htdocs/b.foo.sssg").data) (("y").data) =
      .error (.fatal (badFormMsg (("/htdocs/b.foo.sssg").data))) ∧
    buildFile E0 [] fsFail (("/htdocs/b.foo.sssg").data) =
      (fsFail, some (badFormMsg (("/htdocs/b.foo.sssg").data))) ∧
    computeOutput E0 [] fsJ (("/htdocs/a.js.sssg").data) (("x").data) =
      .ok (E0.jsMinify (("x").data)) := by
  have h1 := (claim5_kind_dispatch E0 [] fsFail (("/htdocs/b.foo.sssg").data)
    (("y").data)).2.1 (("foo").data) (by rfl) (by decide) (by decide) (by decide)
  refine ⟨h1, ?_, ?_⟩
  · exact (claim5_kind_dispatch E0 [] fsFail (("/htdocs/b.foo.sssg").data)
      (("y").data)).2.2.2.2.2.2 (badFormMsg (("/htdocs/b.foo.sssg").data))
      (by decide) h1
  · exact (claim5_kind_dispatch E0 [] fsJ (("/htdocs/a.js.sssg").data)
      (("x").data)).2.2.2.2.2.1 (by rfl)

/-- Claim C6: a well-formed document without a "template" key in its config
section makes HTML generation fail with a fatal, filename-scoped error that
is distinct from the parse error. -/
theorem claim6_missing_template (E : Ext) (cwd : Str) (fs : SMap)
    (contents : Str) (document : Toml)
    (hp : E.parse contents = .ok document)
    (ht : alookup (get_section (("config").data) document) (("template").data) = none) :
    generate_html E cwd fs contents = .error (.soft missingTemplateMsg) ∧
    missingTemplateMsg ≠ parseErrMsg ∧
    (∀ filename, kindToken filename = some htmlTok →
      alookup fs filename = some contents →
      buildFile E cwd fs filename = (fs, some (genErrMsg filename missingTemplateMsg)) ∧
        filename <:+: genErrMsg filename missingTemplateMsg) := by
  have hg : generate_html E cwd fs contents = .error (.soft missingTemplateMsg) := by
    simp [generate_html, hp, ht]
  refine ⟨hg, by decide, ?_⟩
  intro filename hk hc
  have hco : computeOutput E cwd fs filename contents = .error (.soft missingTemplateMsg) := by
    simp only [computeOutput, hk]
    rw [if_neg (by decide)]
    simp only [if_true]
    exact hg
  constructor
  · simp only [buildFile, hc, hco]
  · exact ⟨(("Error generating content for ").data) ++ sq,
      sq ++ ((" (").data) ++ missingTemplateMsg ++ ((")").data),
      by simp [genErrMsg, List.append_assoc]⟩

/-- Witness for C6: with a parser yielding `docNoTpl`, the HTML source aborts
with the missing-template message wrapped in the filename-scoped error. -/
theorem claim6_missing_template_witness :
    buildFile EB [] fsH8 (("/htdocs/p.html.sssg").data) =
      (fsH8, some (genErrMsg (("/htdocs/p.html.sssg").data) missingTemplateMsg)) :=
  ((claim6_missing_template EB [] fsH8 (("c").data) docNoTpl (by rfl)
    (by rfl)).2.2 (("/htdocs/p.html.sssg").data) (by rfl) (by decide)).1

set_option maxRecDepth 8000 in
/-- Counterexample to C8 as stated: at a concrete unparseable source, the
underlying parser diagnostic (the error value the parser returned) does not
appear anywhere in the build's error message — the code replaces every parse
error with the fixed string "TOML parse error" (`.map_err(|_| ...)`). -/
theorem claim8_parse_error_counterexample :
    E8.parse (("c").data) =
      .error (("expected an equals, found an identifier at line 1 column 5").data) ∧
    buildFile E8 [] fsH8 (("/htdocs/p.html.sssg").data) =
      (fsH8, some (genErrMsg (("/htdocs/p.html.sssg").data) parseErrMsg)) ∧
    ¬ ((("expected an equals, found an identifier at line 1 column 5").data) <:+:
        genErrMsg (("/htdocs/p.html.sssg").data) parseErrMsg) := by
  refine ⟨by rfl, by decide, by decide⟩

/-- Claim C8 as amended: an unparseable HTML source aborts the build for that
file with an error carrying the filename and the fixed parse-failure label
"TOML parse error"; the underlying parser diagnostic is discarded. -/
theorem claim8_parse_error_fatal (E : Ext) (cwd : Str) (fs : SMap)
    (contents e filename : Str)
    (hp : E.parse contents = .error e)
    (hk : kindToken filename = some htmlTok)
    (hc : alookup fs filename = some contents) :
    generate_html E cwd fs contents = .error (.soft parseErrMsg) ∧
    buildFile E cwd fs filename = (fs, some (genErrMsg filename parseErrMsg)) ∧
    filename <:+: genErrMsg filename parseErrMsg ∧
    parseErrMsg <:+: genErrMsg filename parseErrMsg := by
  have hg : generate_html E cwd fs contents = .error (.soft parseErrMsg) := by
    simp [generate_html, hp]
  have hco : computeOutput E cwd fs filename contents = .error (.soft parseErrMsg) := by
    simp only [computeOutput, hk]
    rw [if_neg (by decide)]
    simp only [if_true]
    exact hg
  refine ⟨hg, ?_, ?_, ?_⟩
  · simp only [buildFile, hc, hco]
  · exact ⟨(("Error generating content for ").data) ++ sq,
      sq ++ ((" (").data) ++ parseErrMsg ++ ((")").data),
      by simp [genErrMsg, List.append_assoc]⟩
  · exact ⟨(("Error generating content for ").data) ++ sq ++ filename ++ sq ++ ((" (").data),
      ((")").data),
      by simp [genErrMsg, List.append_assoc]⟩

/-- Witness for the amended C8 at the concrete failing parse. -/
theorem claim8_parse_error_fatal_witness :
    buildFile E8 [] fsH8 (("/htdocs/p.html.sssg").data) =
      (fsH8, some (genErrMsg (("/htdocs/p.html.sssg").data) parseErrMsg)) :=
  (claim8_parse_error_fatal E8 [] fsH8 (("c").data)
    (("expected an equals, found an identifier at line 1 column 5").data)
    (("/htdocs/p.html.sssg").data) (by rfl) (by rfl) (by decide)).2.1

/-- Claim C2: substitution fails exactly on the first unresolved placeholder
in template scan order, reporting its name; HTML generation wraps that name
in its error; and a failing per-file step writes nothing, leaving the
filesystem (and so any previous artifact) untouched. -/
theorem claim2_substitution_failure :
    (∀ map t n, render map t = .error n ↔ firstMissing map t = some n) ∧
    (∀ E cwd fs contents document t tc n,
      E.parse contents = .ok document →
      alookup (get_section (("config").data) document) (("template").data) = some t →
      alookup fs (normalizePath (cwd ++ templatesDir ++ t)) = some tc →
      render (mergedMap E document) tc = .error n →
      generate_html E cwd fs contents = .error (.soft (missingVarMsg n)) ∧
        n <:+: missingVarMsg n) ∧
    (∀ E cwd fs filename fs2 e,
      buildFile E cwd fs filename = (fs2, some e) → fs2 = fs) := by
  refine ⟨render_error_iff, ?_, ?_⟩
  · intro E cwd fs contents document t tc n hp ht htc hr
    have htc2 : alookup fs (normalizePath (cwd ++ (templatesDir ++ t))) = some tc := by
      rw [← List.append_assoc]
      exact htc
    constructor
    · simp [generate_html, hp, ht, htc2, hr]
    · exact ⟨(("Template variable ").data) ++ sq,
        sq ++ ((" is missing its value").data),
        by simp [missingVarMsg, List.append_assoc]⟩
  · intro E cwd fs filename fs2 e h
    exact buildFile_error_eq E cwd fs filename fs2 e h

/-- Witness for C2: a template whose only placeholder is absent from the map
makes generation fail naming it, and a failing step leaves the tree as it
was. -/
theorem claim2_substitution_failure_witness :
    generate_html E0 [] fsT (("c").data) =
      .error (.soft (missingVarMsg (("missing").data))) ∧
    ([] : SMap) = [] := by
  have htake : takePH (("missing\x7d\x7d").data) =
      some ((("missing").data), ([] : Str)) := by decide
  have hlook : alookup (mergedMap E0 sampleDoc) (("missing").data) = none := by decide
  have hrender : render (mergedMap E0 sampleDoc) (("\x7b\x7bmissing\x7d\x7d").data) =
      .error (("missing").data) := by
    have h1 := render_brace_some (mergedMap E0 sampleDoc) (("missing\x7d\x7d").data)
      ((("missing").data), ([] : Str)) htake
    rw [show (("\x7b\x7bmissing\x7d\x7d").data) =
      '\x7b' :: '\x7b' :: (("missing\x7d\x7d").data) from rfl]
    rw [h1, hlook]
  constructor
  · exact (claim2_substitution_failure.2.1 E0 [] fsT (("c").data) sampleDoc
      (("base.tmpl").data) (("\x7b\x7bmissing\x7d\x7d").data) (("missing").data)
      (by rfl) (by decide) (by decide) hrender).1
  · exact claim2_substitution_failure.2.2 E0 [] [] (("nofile").data) []
      (readErrMsg (("nofile").data)) (by rfl)

/-- Claim C9 as amended: provided no template path named by any parseable
document's config resolves (after OS ".." resolution) into the htdocs output
root, a successful build leaves the set of marker-suffixed sources unchanged,
and rerunning it on the resulting tree succeeds and reproduces byte-identical
contents at every path.  Without that proviso the claim fails: see the
counterexample, where the build overwrites its own template. -/
theorem claim9_build_idempotent (E : Ext) (cwd : Str) (fs fs' : SMap)
    (hSafe : safeTemplates E cwd)
    (h : buildRun E cwd fs = (fs', none)) :
    sssgFiles cwd fs' = sssgFiles cwd fs ∧
    ∃ fs2, buildRun E cwd fs' = (fs2, none) ∧ ∀ p, alookup fs2 p = alookup fs' p := by
  rw [buildRun] at h
  have hsrc : ∀ f ∈ sssgFiles cwd fs, srcFile cwd f = true := by
    intro f hf
    exact List.of_mem_filter hf
  have hkeys := buildGo_keys E cwd (sssgFiles cwd fs) fs fs' none hsrc h
  have hra := buildGo_readAgree E cwd (sssgFiles cwd fs) fs fs' none hsrc h
  rcases buildGo_sim E cwd hSafe (sssgFiles cwd fs) fs fs' fs' hsrc hra h with ⟨g', hgo, hdisj⟩
  refine ⟨hkeys, g', ?_, ?_⟩
  · rw [buildRun, hkeys]
    exact hgo
  · intro p
    rcases hdisj p with ⟨h1, h2⟩ | h2
    · exact h2
    · exact h2

set_option maxRecDepth 8000 in
/-- Witness for C9: building a one-file JS tree adds the artifact; the rerun
sees the same source list and changes nothing. -/
theorem claim9_build_idempotent_witness :
    sssgFiles []
        [((("/htdocs/a.js.sssg").data), (("x").data)),
         ((("/htdocs/a.js").data), (("x").data))] =
      sssgFiles [] fsJ ∧
    ∃ fs2, buildRun E0 []
        [((("/htdocs/a.js.sssg").data), (("x").data)),
         ((("/htdocs/a.js").data), (("x").data))] = (fs2, none) ∧
      ∀ p, alookup fs2 p =
        alookup [((("/htdocs/a.js.sssg").data), (("x").data)),
          ((("/htdocs/a.js").data), (("x").data))] p :=
  claim9_build_idempotent E0 [] fsJ
    [((("/htdocs/a.js.sssg").data), (("x").data)),
     ((("/htdocs/a.js").data), (("x").data))]
    (by
      intro c document t hp ht
      have hp2 : Except.ok sampleDoc = Except.ok document := hp
      injection hp2 with hdoc
      subst hdoc
      have hx : alookup (get_section (("config").data) sampleDoc) (("template").data) =
          some (("base.tmpl").data) := by decide
      rw [hx] at ht
      injection ht with hbt
      subst hbt
      decide)
    (by decide)

/-- A document whose template path climbs out of the templates directory into
htdocs, aliasing the artifact, and whose placeholder value re-introduces the
placeholder token (substituted values are not re-scanned, so every build
grows the artifact by one substitution). -/
def doc9 : Toml :=
  .vtable [
    ((("config").data), .vtable [((("template").data),
      .vstr (("../htdocs/p.html").data))]),
    ((("plaintext").data), .vtable [((("a").data),
      .vstr (("B\x7b\x7ba\x7d\x7d").data))])
  ]

/-- Like `E0` but parsing yields `doc9`. -/
def E9 : Ext := { E0 with parse := fun _ => .ok doc9 }

/-- The aliasing tree: one HTML source, and a stale artifact at the path the
template value resolves to. -/
def fs9 : SMap :=
  [((("/htdocs/p.html.sssg").data), (("c").data)),
   ((("/htdocs/p.html").data), (("A\x7b\x7ba\x7d\x7d").data))]

/-- `fs9` after one successful build. -/
def fs9a : SMap :=
  [((("/htdocs/p.html.sssg").data), (("c").data)),
   ((("/htdocs/p.html").data), (("AB\x7b\x7ba\x7d\x7d").data))]

/-- `fs9a` after a second successful build. -/
def fs9b : SMap :=
  [((("/htdocs/p.html.sssg").data), (("c").data)),
   ((("/htdocs/p.html").data), (("ABB\x7b\x7ba\x7d\x7d").data))]

set_option maxRecDepth 8000 in
/-- Counterexample to C9 as stated: with the template config value
"../htdocs/p.html", the OS resolves the template path into the htdocs root,
so the build reads the stale artifact as its template and then overwrites it.
Two consecutive builds both succeed on unchanged sources yet leave different
bytes at the same artifact path, so rebuilding is not byte-identical. -/
theorem claim9_rebuild_counterexample :
    buildRun E9 [] fs9 = (fs9a, none) ∧
    buildRun E9 [] fs9a = (fs9b, none) ∧
    alookup fs9b (("/htdocs/p.html").data) ≠
      alookup fs9a (("/htdocs/p.html").data) := by
  have hnil : render (mergedMap E9 doc9) [] = .ok [] := by rw [render]
  have hph : render (mergedMap E9 doc9) (("\x7b\x7ba\x7d\x7d").data) =
      .ok (("B\x7b\x7ba\x7d\x7d").data) := by
    rw [show (("\x7b\x7ba\x7d\x7d").data) =
      '\x7b' :: '\x7b' :: (("a\x7d\x7d").data) from rfl]
    rw [render_brace_some (mergedMap E9 doc9) (("a\x7d\x7d").data)
      ((("a").data), ([] : Str)) (by decide)]
    rw [show alookup (mergedMap E9 doc9) (("a").data) =
      some (("B\x7b\x7ba\x7d\x7d").data) from by decide]
    rw [hnil]
    rfl
  have hr1 : render (mergedMap E9 doc9) (("A\x7b\x7ba\x7d\x7d").data) =
      .ok (("AB\x7b\x7ba\x7d\x7d").data) := by
    rw [show (("A\x7b\x7ba\x7d\x7d").data) = 'A' :: (("\x7b\x7ba\x7d\x7d").data) from rfl]
    rw [render_other (mergedMap E9 doc9) 'A' (("\x7b\x7ba\x7d\x7d").data)
      (fun r hca _ => absurd hca (by decide))]
    rw [hph]
    rfl
  have hr2 : render (mergedMap E9 doc9) (("AB\x7b\x7ba\x7d\x7d").data) =
      .ok (("ABB\x7b\x7ba\x7d\x7d").data) := by
    rw [show (("AB\x7b\x7ba\x7d\x7d").data) =
      'A' :: 'B' :: (("\x7b\x7ba\x7d\x7d").data) from rfl]
    rw [render_other (mergedMap E9 doc9) 'A' ('B' :: (("\x7b\x7ba\x7d\x7d").data))
      (fun r hca _ => absurd hca (by decide))]
    rw [render_other (mergedMap E9 doc9) 'B' (("\x7b\x7ba\x7d\x7d").data)
      (fun r hcb _ => absurd hcb (by decide))]
    rw [hph]
    rfl
  have hp9 : E9.parse (("c").data) = .ok doc9 := rfl
  have ht9 : alookup (get_section (("config").data) doc9) (("template").data) =
      some (("../htdocs/p.html").data) := by decide
  have hgen1 : generate_html E9 [] fs9 (("c").data) =
      .ok (("AB\x7b\x7ba\x7d\x7d").data) := by
    have htc : alookup fs9
        (normalizePath ((([] : Str) ++ templatesDir) ++ (("../htdocs/p.html").data))) =
        some (("A\x7b\x7ba\x7d\x7d").data) := by decide
    simp only [generate_html, hp9, ht9, htc, hr1]
    rfl
  have hgen2 : generate_html E9 [] fs9a (("c").data) =
      .ok (("ABB\x7b\x7ba\x7d\x7d").data) := by
    have htc : alookup fs9a
        (normalizePath ((([] : Str) ++ templatesDir) ++ (("../htdocs/p.html").data))) =
        some (("AB\x7b\x7ba\x7d\x7d").data) := by decide
    simp only [generate_html, hp9, ht9, htc, hr2]
    rfl
  have hk9 : kindToken (("/htdocs/p.html.sssg").data) = some htmlTok := by decide
  have hco1 : computeOutput E9 [] fs9 (("/htdocs/p.html.sssg").data) (("c").data) =
      .ok (("AB\x7b\x7ba\x7d\x7d").data) := by
    simp only [computeOutput, hk9]
    rw [if_neg (by decide)]
    simp only [if_true]
    exact hgen1
  have hco2 : computeOutput E9 [] fs9a (("/htdocs/p.html.sssg").data) (("c").data) =
      .ok (("ABB\x7b\x7ba\x7d\x7d").data) := by
    simp only [computeOutput, hk9]
    rw [if_neg (by decide)]
    simp only [if_true]
    exact hgen2
  have hbf1 : buildFile E9 [] fs9 (("/htdocs/p.html.sssg").data) = (fs9a, none) := by
    have hc : alookup fs9 (("/htdocs/p.html.sssg").data) = some (("c").data) := by decide
    simp only [buildFile, hc, hco1]
    decide
  have hbf2 : buildFile E9 [] fs9a (("/htdocs/p.html.sssg").data) = (fs9b, none) := by
    have hc : alookup fs9a (("/htdocs/p.html.sssg").data) = some (("c").data) := by decide
    simp only [buildFile, hc, hco2]
    decide
  refine ⟨?_, ?_, by decide⟩
  · have hl : sssgFiles [] fs9 = [(("/htdocs/p.html.sssg").data)] := by decide
    rw [buildRun, hl, buildGo, hbf1]
    rfl
  · have hl : sssgFiles [] fs9a = [(("/htdocs/p.html.sssg").data)] := by decide
    rw [buildRun, hl, buildGo, hbf2]
    rfl

/-- Claim C10: an aborted build run splits the source list at the failing
file: every earlier file's artifact was written and remains on disk, nothing
is rolled back, and the artifact paths of the failing file and all later
files are exactly as they were before the run. -/
theorem claim10_failfast (E : Ext) (cwd : Str) (fs fs' : SMap) (e : Str)
    (hnd : (sssgFiles cwd fs).Nodup)
    (h : buildRun E cwd fs = (fs', some e)) :
    ∃ pre f post fsPre,
      sssgFiles cwd fs = pre ++ f :: post ∧
      buildGo E cwd pre fs = (fsPre, none) ∧
      buildFile E cwd fsPre f = (fsPre, some e) ∧
      fs' = fsPre ∧
      (∀ g ∈ pre, ∃ o, alookup fs' (artifactOf g) = some o) ∧
      (∀ g ∈ f :: post, alookup fs' (artifactOf g) = alookup fs (artifactOf g)) := by
  rw [buildRun] at h
  exact buildGo_abort E cwd (sssgFiles cwd fs) fs fs' e
    (fun f hf => List.of_mem_filter hf) hnd h

set_option maxRecDepth 8000 in
/-- Witness for C10: the two-file tree aborts on the bad kind after building
the JS artifact, which remains. -/
theorem claim10_failfast_witness :
    ∃ pre f post fsPre,
      sssgFiles [] fsFail = pre ++ f :: post ∧
      buildGo E0 [] pre fsFail = (fsPre, none) ∧
      buildFile E0 [] fsPre f = (fsPre, some (badFormMsg (("/htdocs/b.foo.sssg").data))) ∧
      [((("/htdocs/a.js.sssg").data), (("x").data)),
       ((("/htdocs/b.foo.sssg").data), (("y").data)),
       ((("/htdocs/a.js").data), (("x").data))] = fsPre ∧
      (∀ g ∈ pre, ∃ o,
        alookup [((("/htdocs/a.js.sssg").data), (("x").data)),
          ((("/htdocs/b.foo.sssg").data), (("y").data)),
          ((("/htdocs/a.js").data), (("x").data))] (artifactOf g) = some o) ∧
      (∀ g ∈ f :: post,
        alookup [((("/htdocs/a.js.sssg").data), (("x").data)),
          ((("/htdocs/b.foo.sssg").data), (("y").data)),
          ((("/htdocs/a.js").data), (("x").data))] (artifactOf g) =
          alookup fsFail (artifactOf g)) :=
  claim10_failfast E0 [] fsFail
    [((("/htdocs/a.js.sssg").data), (("x").data)),
     ((("/htdocs/b.foo.sssg").data), (("y").data)),
     ((("/htdocs/a.js").data), (("x").data))]
    (badFormMsg (("/htdocs/b.foo.sssg").data)) (by decide) (by decide)

end SSSG
